import Mathlib

/-!
Verification of the TMDS (Transition-Minimized Differential Signaling) codec
found in examples/03_HDMI_demo/tests/tmds_check.py.

The Python code works on arbitrary-precision integers with two's-complement
bitwise semantics.  We embed it over Lean's Int.  The Python bitwise
operators are reproduced by the py* helpers below; every call site in the
source applies them with a nonnegative right operand (masks and shift
amounts), which the helpers implement faithfully for arbitrary left
operands, including negative ones (two's complement).

The encoder's mutable field self.encode_cnt (the running disparity counter)
is made explicit: Encode takes the counter before the call and returns,
next to the function's Except result, the counter after the call.  A raised
ValueError is modelled as Except.error; since the source raises before any
mutation, the returned state on an error is the incoming counter.
-/

set_option maxRecDepth 1000000
set_option maxHeartbeats 2000000

namespace TMDS

/-- Error raised by the source on domain violations (Python ValueError). -/
inductive Err
  | outOfRange
deriving DecidableEq, Repr

instance : DecidableEq (Except Err Int) := fun a b =>
  match a, b with
  | .ok x, .ok y =>
      if h : x = y then isTrue (by rw [h]) else isFalse (by intro hc; cases hc; exact h rfl)
  | .error x, .error y =>
      if h : x = y then isTrue (by rw [h]) else isFalse (by intro hc; cases hc; exact h rfl)
  | .ok _, .error _ => isFalse (by intro hc; cases hc)
  | .error _, .ok _ => isFalse (by intro hc; cases hc)

/-- Python bitwise NOT: for every integer x, Python's (~x) equals -(x+1). -/
def pyNot (x : Int) : Int := -(x + 1)

/-- Python bitwise AND, for a nonnegative right operand m (every call site in
the source uses a nonnegative mask on the right).  For x greater or equal 0
this is plain Nat AND; for negative x the two's-complement identity
(x AND m) = m - ((-x-1) AND m) is used, since the bits of x are the
complement of the bits of -x-1. -/
def pyAnd (x m : Int) : Int :=
  if 0 ≤ x then ((x.toNat &&& m.toNat : Nat) : Int)
  else ((m.toNat - ((-x - 1).toNat &&& m.toNat : Nat) : Nat) : Int)

/-- Python bitwise OR; both operands are nonnegative at every call site in
the source. -/
def pyOr (a b : Int) : Int := ((a.toNat ||| b.toNat : Nat) : Int)

/-- Python bitwise XOR; both operands are nonnegative (single bits) at every
call site in the source. -/
def pyXor (a b : Int) : Int := ((a.toNat ^^^ b.toNat : Nat) : Int)

/-- Python left shift; the shifted value is nonnegative at every call site in
the source. -/
def pyShl (a : Int) (n : Nat) : Int := ((a.toNat <<< n : Nat) : Int)

/-- Python right shift; the shifted value is nonnegative at every call site
in the source (it is always a masked value there). -/
def pyShr (a : Int) (n : Nat) : Int := ((a.toNat >>> n : Nat) : Int)

/-- Source getBit: (input AND (1 shl bitpos)) shr bitpos. -/
def getBit (input : Int) (bitpos : Nat) : Int :=
  pyShr (pyAnd input (pyShl 1 bitpos)) bitpos

/-- Source invBit: 0 if input (truthy) else 1. -/
def invBit (input : Int) : Int := if input ≠ 0 then 0 else 1

/-- Source CountOnesInData: count the set bits among the low (bits) bits. -/
def CountOnesInData (input : Int) (bits : Nat := 8) : Int :=
  (List.range bits).foldl
    (fun ones n => if pyAnd input (pyShl 1 n) ≠ 0 then ones + 1 else ones) 0

/-- Source CountZerosInData: 8 - CountOnesInData input (8-bit inputs only). -/
def CountZerosInData (input : Int) : Int := 8 - CountOnesInData input

/-- Source line 92: use XNOR when ones_in_data exceeds 4, or equals 4 with
bit 0 of the input clear. -/
def use_xnor (input : Int) : Bool :=
  if CountOnesInData input > 4 ∨
      (CountOnesInData input = 4 ∧ ¬ pyAnd input (pyShl 1 0) ≠ 0) then true else false

/-- Source lines 91-103: the 9-bit minimized word q_m.  Bit 0 copies the
input; bits 1..7 chain XOR (or XNOR) of the previous output bit with the
next input bit; bit 8 records the operator (1 = XOR, 0 = XNOR). -/
def qm (input : Int) : Int :=
  let ux := use_xnor input
  let q0 := pyAnd input (pyShl 1 0)
  let q_m := (List.range' 1 7).foldl
    (fun q_m n =>
      let bit := pyXor (getBit q_m (n - 1)) (getBit input n)
      let bit := if ux then (if bit ≠ 0 then 0 else 1) else bit
      pyOr q_m (pyShl bit n)) q0
  pyOr q_m (if ux then 0 else pyShl 1 8)

/-- Source lines 132-134: symbol assembled in the first DC-balance branch. -/
def caseASym (q_m : Int) : Int :=
  let q_out := pyShl (invBit (getBit q_m 8)) 9
  let q_out := pyOr q_out (pyAnd q_m (pyShl 1 8))
  pyOr q_out (if getBit q_m 8 ≠ 0 then pyAnd q_m 0xFF else pyAnd (pyNot q_m) 0xFF)

/-- Source lines 137-144: counter increment in the first DC-balance branch. -/
def caseADelta (q_m : Int) : Int :=
  if getBit q_m 8 ≠ 0 then
    CountOnesInData (pyAnd q_m 0xFF) - CountZerosInData (pyAnd q_m 0xFF)
  else
    CountZerosInData (pyAnd q_m 0xFF) - CountOnesInData (pyAnd q_m 0xFF)

/-- Source lines 150-152: symbol assembled in the second DC-balance branch. -/
def caseBSym (q_m : Int) : Int :=
  let q_out := pyShl 1 9
  let q_out := pyOr q_out (pyAnd q_m (pyShl 1 8))
  pyOr q_out (pyAnd (pyNot (pyAnd q_m 0xFF)) 0xFF)

/-- Source line 153: counter increment in the second DC-balance branch. -/
def caseBDelta (q_m : Int) : Int :=
  getBit q_m 8 * 2 + CountZerosInData (pyAnd q_m 0xFF) - CountOnesInData (pyAnd q_m 0xFF)

/-- Source lines 155-157: symbol assembled in the third DC-balance branch. -/
def caseCSym (q_m : Int) : Int :=
  let q_out := pyShl 0 9
  let q_out := pyOr q_out (pyAnd q_m (pyShl 1 8))
  pyOr q_out (pyAnd q_m 0xFF)

/-- Source line 161: counter increment in the third DC-balance branch. -/
def caseCDelta (q_m : Int) : Int :=
  -(invBit (getBit q_m 8) * 2) + CountOnesInData (pyAnd q_m 0xFF) - CountZerosInData (pyAnd q_m 0xFF)

/-- Source lines 130-161: the DC-balance stage.  Given the counter before the
symbol and the minimized word, produce the transmitted symbol and the counter
after the symbol (the source's += makes the update additive). -/
def dcBalance (cnt q_m : Int) : Int × Int :=
  if cnt = 0 ∨ CountOnesInData (pyAnd q_m 0xFF) = CountZerosInData (pyAnd q_m 0xFF) then
    (caseASym q_m, cnt + caseADelta q_m)
  else if (cnt > 0 ∧ CountOnesInData (pyAnd q_m 0xFF) > CountZerosInData (pyAnd q_m 0xFF)) ∨
      (cnt < 0 ∧ CountZerosInData (pyAnd q_m 0xFF) > CountOnesInData (pyAnd q_m 0xFF)) then
    (caseBSym q_m, cnt + caseBDelta q_m)
  else
    (caseCSym q_m, cnt + caseCDelta q_m)

/-- Source lines 77-162: TMDS.Encode.  The first component is the function's
result — the returned pair (q_out, self.encode_cnt), or the raised error.
The second component is the object state self.encode_cnt after the call
(equal to the incoming cnt when an error is raised, since every raise in the
source happens before any mutation). -/
def Encode (cnt input : Int) (DE : Bool := true) (ctrl : Int := 0) :
    Except Err (Int × Int) × Int :=
  if input > 255 then (.error .outOfRange, cnt)
  else if input < 0 then (.error .outOfRange, cnt)
  else if ctrl > 3 then (.error .outOfRange, cnt)
  else
    let q_m := qm input
    if !DE then
      if ctrl = 0 then (.ok (0b1101010100, 0), 0)
      else if ctrl = 1 then (.ok (0b0010101011, 0), 0)
      else if ctrl = 2 then (.ok (0b0101010100, 0), 0)
      else (.ok (0b1010101011, 0), 0)
    else
      let r := dcBalance cnt q_m
      (.ok (r.1, r.2), r.2)

/-- Source lines 164-185: TMDS.Decode.  Pure function of the symbol. -/
def Decode (input : Int) : Except Err Int :=
  if input ≥ 1024 then .error .outOfRange
  else
    let input := if pyAnd input (pyShl 1 9) ≠ 0 then
        pyOr (pyAnd input 0x300) (pyAnd (pyNot input) 0xFF)
      else input
    let q0 := pyAnd input (pyShl 1 0)
    let ux := if pyAnd input (pyShl 1 8) ≠ 0 then false else true
    let q := (List.range' 1 7).foldl
      (fun q n =>
        let a := getBit input n
        let b := getBit input (n - 1)
        let bit := pyXor a b
        let bit := if ux then (if bit ≠ 0 then 0 else 1) else bit
        pyOr q (pyShl bit n)) q0
    .ok q

/-- The Decode method invoked on an encoder object whose running disparity
counter holds cnt: the method body never reads or writes self.encode_cnt, so
the call returns the pure Decode result and leaves the state untouched. -/
def DecodeS (cnt input : Int) : Except Err Int × Int := (Decode input, cnt)

/-- Iterated data-period encoding: fold a list of (byte, control) calls
through the running disparity counter, starting from c0. -/
def encodeRun (c0 : Int) (calls : List (Int × Int)) : Int :=
  calls.foldl (fun c p => (Encode c p.1 true p.2).2) c0

/-! Spec-side definitions, written from the wording of the specification
(sections 4.1 and 8) rather than from the source, for comparison with the
embedded code. -/

/-- Spec-side popcount: the number of set bits among the low 8 bits of a
nonnegative value (used for ones of a byte and ones of the minimized word's
data bits). -/
def specOnes (q : Int) : Int :=
  (((List.range 8).filter (fun i => q.toNat.testBit i)).length : Int)

/-- Spec-side zeros of the low 8 bits: 8 minus the ones. -/
def specZeros (q : Int) : Int := 8 - specOnes q

/-- Spec-side extraction of bit 8 of the minimized word (the operator flag),
as the integer 0 or 1. -/
def specBit8 (q : Int) : Int := if q.toNat.testBit 8 then 1 else 0

/-- Spec-side data bits of the minimized word: its value modulo 256. -/
def specLow8 (q : Int) : Int := ((q.toNat % 256 : Nat) : Int)

/-- Spec Case A symbol: bit 9 is the inverse of bit 8, bit 8 is passed
through, data bits are the minimized word's data bits, bitwise-inverted
exactly when bit 8 is 0 (for an 8-bit value, bitwise inversion is 255 minus
the value). -/
def specASym (q : Int) : Int :=
  (1 - specBit8 q) * 512 + specBit8 q * 256 +
    (if specBit8 q = 1 then specLow8 q else 255 - specLow8 q)

/-- Spec Case A counter update: plus (ones - zeros) if bit 8 is 1, else
plus (zeros - ones). -/
def specADelta (q : Int) : Int :=
  if specBit8 q = 1 then specOnes q - specZeros q else specZeros q - specOnes q

/-- Spec Case B symbol: bit 9 is 1, bit 8 is passed through, data bits are
bitwise-inverted. -/
def specBSym (q : Int) : Int := 512 + specBit8 q * 256 + (255 - specLow8 q)

/-- Spec Case B counter update: plus (bit8 times 2) + zeros - ones. -/
def specBDelta (q : Int) : Int := specBit8 q * 2 + specZeros q - specOnes q

/-- Spec Case C symbol: bit 9 is 0, bit 8 is passed through, data bits are
transmitted unmodified. -/
def specCSym (q : Int) : Int := specBit8 q * 256 + specLow8 q

/-- Spec Case C counter update: minus ((1 - bit8) times 2) + ones - zeros. -/
def specCDelta (q : Int) : Int :=
  -((1 - specBit8 q) * 2) + specOnes q - specZeros q

/-- Boolean check that Decode succeeds on a symbol and yields a byte in
[0, 255]; used for an exhaustive kernel evaluation over the symbol domain. -/
def decodeInRange (s : Int) : Bool :=
  match Decode s with
  | .ok v => decide (0 ≤ v ∧ v ≤ 255)
  | .error _ => false

/-! Helper lemmas about the embedded code. -/

/-- On in-range data-period arguments, Encode is the DC-balance stage applied
to the minimized word. -/
theorem encode_data_eq (cnt b ctrl : Int) (h1 : ¬(b > 255)) (h2 : ¬(b < 0))
    (h3 : ¬(ctrl > 3)) :
    Encode cnt b true ctrl =
      (.ok ((dcBalance cnt (qm b)).1, (dcBalance cnt (qm b)).2),
        (dcBalance cnt (qm b)).2) := by
  simp only [Encode, if_neg h1, if_neg h2, if_neg h3, Bool.not_true]
  simp

/-- The transmitted symbol of the DC-balance stage depends on the counter
only through its trichotomy (zero, positive, negative). -/
theorem dc_fst_congr (cnt cnt' q : Int) (h0 : cnt = 0 ↔ cnt' = 0)
    (hp : 0 < cnt ↔ 0 < cnt') (hn : cnt < 0 ↔ cnt' < 0) :
    (dcBalance cnt q).1 = (dcBalance cnt' q).1 := by
  unfold dcBalance
  generalize CountOnesInData (pyAnd q 0xFF) = o
  generalize CountZerosInData (pyAnd q 0xFF) = z
  split_ifs <;> first | rfl | (exfalso; tauto)

/-- The transmitted symbol of the DC-balance stage is one of the three case
symbols. -/
theorem dc_fst_cases (cnt q : Int) :
    (dcBalance cnt q).1 = caseASym q ∨ (dcBalance cnt q).1 = caseBSym q ∨
      (dcBalance cnt q).1 = caseCSym q := by
  unfold dcBalance
  split_ifs <;> simp

/-- Exhaustive check: decoding the data-period symbol produced with a
negative counter recovers the byte. -/
theorem rt_neg : ∀ n : Nat, n < 256 →
    Decode (dcBalance (-1) (qm (n : Int))).1 = .ok (n : Int) := by decide

/-- Exhaustive check: decoding the data-period symbol produced with a zero
counter recovers the byte. -/
theorem rt_zero : ∀ n : Nat, n < 256 →
    Decode (dcBalance 0 (qm (n : Int))).1 = .ok (n : Int) := by decide

/-- Exhaustive check: decoding the data-period symbol produced with a
positive counter recovers the byte. -/
theorem rt_pos : ∀ n : Nat, n < 256 →
    Decode (dcBalance 1 (qm (n : Int))).1 = .ok (n : Int) := by decide

/-- Claim C1: for every byte in [0,255], every control selector in [0,3] and
every prior value of the running disparity counter, a data-period Encode
succeeds and Decode applied to the produced symbol returns the original
byte. -/
theorem encode_decode_roundtrip (cnt b ctrl : Int) (hb0 : 0 ≤ b)
    (hb1 : b ≤ 255) (hc0 : 0 ≤ ctrl) (hc1 : ctrl ≤ 3) :
    ∃ q c, Encode cnt b true ctrl = (.ok (q, c), c) ∧ Decode q = .ok b := by
  have hE := encode_data_eq cnt b ctrl (by omega) (by omega) (by omega)
  refine ⟨(dcBalance cnt (qm b)).1, (dcBalance cnt (qm b)).2, hE, ?_⟩
  obtain ⟨n, hn, rfl⟩ : ∃ n : Nat, n < 256 ∧ b = (n : Int) :=
    ⟨b.toNat, by omega, by omega⟩
  rcases lt_trichotomy cnt 0 with h | h | h
  · rw [dc_fst_congr cnt (-1) _ (by omega) (by omega) (by omega)]
    exact rt_neg n hn
  · rw [dc_fst_congr cnt 0 _ (by omega) (by omega) (by omega)]
    exact rt_zero n hn
  · rw [dc_fst_congr cnt 1 _ (by omega) (by omega) (by omega)]
    exact rt_pos n hn

/-- Witness for Claim C1 at byte 77, control 2, prior counter -3. -/
theorem encode_decode_roundtrip_witness :
    ∃ q c, Encode (-3) 77 true 2 = (.ok (q, c), c) ∧ Decode q = .ok 77 :=
  encode_decode_roundtrip (-3) 77 2 (by decide) (by decide) (by decide)
    (by decide)

/-- Exhaustive check: on every minimized word arising from a byte, the
source's counting and the three branch symbols and counter increments agree
with the spec-side formulas. -/
theorem spec_bridge : ∀ n : Nat, n < 256 →
    CountOnesInData (pyAnd (qm (n : Int)) 0xFF) = specOnes (qm (n : Int)) ∧
    caseASym (qm (n : Int)) = specASym (qm (n : Int)) ∧
    caseADelta (qm (n : Int)) = specADelta (qm (n : Int)) ∧
    caseBSym (qm (n : Int)) = specBSym (qm (n : Int)) ∧
    caseBDelta (qm (n : Int)) = specBDelta (qm (n : Int)) ∧
    caseCSym (qm (n : Int)) = specCSym (qm (n : Int)) ∧
    caseCDelta (qm (n : Int)) = specCDelta (qm (n : Int)) := by decide

/-- Claim C2: on every valid data-period call, the DC-balance stage selects
exactly the case of section 4.1 step 5 — Case A when the counter is 0 or the
minimized word's data bits are balanced, Case B when the counter sign and
the data-bit majority reinforce each other, Case C otherwise — and produces
that case's symbol and counter update as stated by the spec. -/
theorem dc_balance_case_selection (cnt b ctrl : Int) (hb0 : 0 ≤ b)
    (hb1 : b ≤ 255) (hc0 : 0 ≤ ctrl) (hc1 : ctrl ≤ 3) :
    ((cnt = 0 ∨ specOnes (qm b) = specZeros (qm b)) →
      Encode cnt b true ctrl =
        (.ok (specASym (qm b), cnt + specADelta (qm b)), cnt + specADelta (qm b)))
    ∧ ((0 < cnt ∧ specZeros (qm b) < specOnes (qm b)) ∨
        (cnt < 0 ∧ specOnes (qm b) < specZeros (qm b)) →
      Encode cnt b true ctrl =
        (.ok (specBSym (qm b), cnt + specBDelta (qm b)), cnt + specBDelta (qm b)))
    ∧ (¬(cnt = 0 ∨ specOnes (qm b) = specZeros (qm b)) →
        ¬((0 < cnt ∧ specZeros (qm b) < specOnes (qm b)) ∨
          (cnt < 0 ∧ specOnes (qm b) < specZeros (qm b))) →
      Encode cnt b true ctrl =
        (.ok (specCSym (qm b), cnt + specCDelta (qm b)), cnt + specCDelta (qm b))) := by
  have hE := encode_data_eq cnt b ctrl (by omega) (by omega) (by omega)
  obtain ⟨n, hn, rfl⟩ : ∃ n : Nat, n < 256 ∧ b = (n : Int) :=
    ⟨b.toNat, by omega, by omega⟩
  obtain ⟨ho, hA1, hA2, hB1, hB2, hC1, hC2⟩ := spec_bridge n hn
  have hz : CountZerosInData (pyAnd (qm (n : Int)) 0xFF) =
      specZeros (qm (n : Int)) := by
    unfold CountZerosInData specZeros; rw [ho]
  refine ⟨?_, ?_, ?_⟩
  · intro h
    have hcond : cnt = 0 ∨ CountOnesInData (pyAnd (qm (n : Int)) 0xFF) =
        CountZerosInData (pyAnd (qm (n : Int)) 0xFF) := by
      rw [ho, hz]; exact h
    rw [hE]; unfold dcBalance; rw [if_pos hcond]; simp [hA1, hA2]
  · intro h
    have hcond : (cnt > 0 ∧ CountOnesInData (pyAnd (qm (n : Int)) 0xFF) >
          CountZerosInData (pyAnd (qm (n : Int)) 0xFF)) ∨
        (cnt < 0 ∧ CountZerosInData (pyAnd (qm (n : Int)) 0xFF) >
          CountOnesInData (pyAnd (qm (n : Int)) 0xFF)) := by
      rw [ho, hz]; exact h
    have hnA : ¬(cnt = 0 ∨ CountOnesInData (pyAnd (qm (n : Int)) 0xFF) =
        CountZerosInData (pyAnd (qm (n : Int)) 0xFF)) := by
      rw [ho, hz]; omega
    rw [hE]; unfold dcBalance; rw [if_neg hnA, if_pos hcond]; simp [hB1, hB2]
  · intro h1 h2
    have hnA : ¬(cnt = 0 ∨ CountOnesInData (pyAnd (qm (n : Int)) 0xFF) =
        CountZerosInData (pyAnd (qm (n : Int)) 0xFF)) := by
      rw [ho, hz]; exact h1
    have hnB : ¬((cnt > 0 ∧ CountOnesInData (pyAnd (qm (n : Int)) 0xFF) >
          CountZerosInData (pyAnd (qm (n : Int)) 0xFF)) ∨
        (cnt < 0 ∧ CountZerosInData (pyAnd (qm (n : Int)) 0xFF) >
          CountOnesInData (pyAnd (qm (n : Int)) 0xFF))) := by
      rw [ho, hz]; exact h2
    rw [hE]; unfold dcBalance; rw [if_neg hnA, if_neg hnB]; simp [hC1, hC2]

/-- Witness for Claim C2: Case A at byte 0, control 0, counter 0. -/
theorem dc_balance_case_selection_witness :
    Encode 0 0 true 0 =
      (.ok (specASym (qm 0), 0 + specADelta (qm 0)), 0 + specADelta (qm 0)) :=
  (dc_balance_case_selection 0 0 0 (by decide) (by decide) (by decide)
    (by decide)).1 (Or.inl rfl)

/-- Exhaustive check behind Claim C3. -/
theorem operator_choice_all : ∀ n : Nat, n < 256 →
    (use_xnor (n : Int) = true ↔
      (4 < specOnes (n : Int) ∨ (specOnes (n : Int) = 4 ∧ (n : Int) % 2 = 0)))
    ∧ (getBit (qm (n : Int)) 8 = 1 ↔ use_xnor (n : Int) = false)
    ∧ (getBit (qm (n : Int)) 8 = 0 ↔ use_xnor (n : Int) = true) := by decide

/-- Claim C3: the encoder picks the XNOR chain exactly when the byte has
more than 4 set bits, or exactly 4 set bits with bit 0 clear, and otherwise
the XOR chain; and bit 8 of the minimized word is 1 exactly when XOR was
used and 0 exactly when XNOR was used. -/
theorem minimization_operator_choice (b : Int) (hb0 : 0 ≤ b) (hb1 : b ≤ 255) :
    (use_xnor b = true ↔
      (4 < specOnes b ∨ (specOnes b = 4 ∧ b % 2 = 0)))
    ∧ (getBit (qm b) 8 = 1 ↔ use_xnor b = false)
    ∧ (getBit (qm b) 8 = 0 ↔ use_xnor b = true) := by
  obtain ⟨n, hn, rfl⟩ : ∃ n : Nat, n < 256 ∧ b = (n : Int) :=
    ⟨b.toNat, by omega, by omega⟩
  exact operator_choice_all n hn

/-- Witness for Claim C3 at byte 7 (three ones, XOR chain). -/
theorem minimization_operator_choice_witness :
    (use_xnor 7 = true ↔
      (4 < specOnes 7 ∨ (specOnes 7 = 4 ∧ (7 : Int) % 2 = 0)))
    ∧ (getBit (qm 7) 8 = 1 ↔ use_xnor 7 = false)
    ∧ (getBit (qm 7) 8 = 0 ↔ use_xnor 7 = true) :=
  minimization_operator_choice 7 (by decide) (by decide)

/-- Claim C4: a control-period call with a valid byte and control selector
resets the running disparity counter to 0 and returns the fixed 10-bit
constant selected by the control selector. -/
theorem control_period_constants (cnt b ctrl : Int) (hb0 : 0 ≤ b)
    (hb1 : b ≤ 255) (hc0 : 0 ≤ ctrl) (hc1 : ctrl ≤ 3) :
    (ctrl = 0 → Encode cnt b false ctrl = (.ok (0b1101010100, 0), 0))
    ∧ (ctrl = 1 → Encode cnt b false ctrl = (.ok (0b0010101011, 0), 0))
    ∧ (ctrl = 2 → Encode cnt b false ctrl = (.ok (0b0101010100, 0), 0))
    ∧ (ctrl = 3 → Encode cnt b false ctrl = (.ok (0b1010101011, 0), 0)) := by
  have h1 : ¬(b > 255) := by omega
  have h2 : ¬(b < 0) := by omega
  have h3 : ¬(ctrl > 3) := by omega
  refine ⟨?_, ?_, ?_, ?_⟩ <;> intro hc <;> subst hc <;>
    simp [Encode, if_neg h1, if_neg h2, if_neg h3]

/-- Witness for Claim C4 at byte 9, control 1, prior counter 5. -/
theorem control_period_constants_witness :
    Encode 5 9 false 1 = (.ok (0b0010101011, 0), 0) :=
  (control_period_constants 5 9 1 (by decide) (by decide) (by decide)
    (by decide)).2.1 rfl

/-- Exhaustive check: facts about the three per-symbol counter increments.
All are even; the Case A increment has magnitude at most 8 and vanishes on
balanced data bits; when the data bits have more ones than zeros the Case B
increment lies in [-10, 0] and the Case C increment in [0, 10]; when they
have more zeros than ones the Case B increment lies in [2, 10] and the Case
C increment in [-10, 0]. -/
theorem delta_facts : ∀ n : Nat, n < 256 →
    (caseADelta (qm (n : Int)) % 2 = 0 ∧ caseBDelta (qm (n : Int)) % 2 = 0 ∧
      caseCDelta (qm (n : Int)) % 2 = 0)
    ∧ (-8 ≤ caseADelta (qm (n : Int)) ∧ caseADelta (qm (n : Int)) ≤ 8)
    ∧ (CountOnesInData (pyAnd (qm (n : Int)) 0xFF) =
        CountZerosInData (pyAnd (qm (n : Int)) 0xFF) →
        caseADelta (qm (n : Int)) = 0)
    ∧ (CountZerosInData (pyAnd (qm (n : Int)) 0xFF) <
        CountOnesInData (pyAnd (qm (n : Int)) 0xFF) →
        (-10 ≤ caseBDelta (qm (n : Int)) ∧ caseBDelta (qm (n : Int)) ≤ 0) ∧
        (0 ≤ caseCDelta (qm (n : Int)) ∧ caseCDelta (qm (n : Int)) ≤ 10))
    ∧ (CountOnesInData (pyAnd (qm (n : Int)) 0xFF) <
        CountZerosInData (pyAnd (qm (n : Int)) 0xFF) →
        (2 ≤ caseBDelta (qm (n : Int)) ∧ caseBDelta (qm (n : Int)) ≤ 10) ∧
        (-10 ≤ caseCDelta (qm (n : Int)) ∧ caseCDelta (qm (n : Int)) ≤ 0)) := by
  decide

/-- Single-step behaviour of the running disparity counter on a valid byte:
the change is even; from 0 it lands in [-8, 8]; from a positive counter it
moves down by at most 10 and never up; from a negative counter it moves up
by at most 10 and never down. -/
theorem step_bound (cnt b : Int) (hb0 : 0 ≤ b) (hb1 : b ≤ 255) :
    ((dcBalance cnt (qm b)).2 - cnt) % 2 = 0
    ∧ (cnt = 0 → -8 ≤ (dcBalance cnt (qm b)).2 ∧ (dcBalance cnt (qm b)).2 ≤ 8)
    ∧ (0 < cnt → cnt - 10 ≤ (dcBalance cnt (qm b)).2 ∧
        (dcBalance cnt (qm b)).2 ≤ cnt)
    ∧ (cnt < 0 → cnt ≤ (dcBalance cnt (qm b)).2 ∧
        (dcBalance cnt (qm b)).2 ≤ cnt + 10) := by
  obtain ⟨n, hn, rfl⟩ : ∃ n : Nat, n < 256 ∧ b = (n : Int) :=
    ⟨b.toNat, by omega, by omega⟩
  obtain ⟨⟨heA, heB, heC⟩, hAb, hA0, hgt, hlt⟩ := delta_facts n hn
  unfold dcBalance
  split_ifs with hA hB
  · rcases hA with h | h
    · subst h; dsimp only; omega
    · have := hA0 h; dsimp only; omega
  · dsimp only
    rcases hB with ⟨hs, h⟩ | ⟨hs, h⟩
    · have := hgt h; omega
    · have := hlt h; omega
  · dsimp only
    push_neg at hA hB
    rcases lt_trichotomy (CountOnesInData (pyAnd (qm (n : Int)) 0xFF))
        (CountZerosInData (pyAnd (qm (n : Int)) 0xFF)) with h | h | h
    · have := hlt h
      omega
    · exact absurd h hA.2
    · have := hgt h
      omega

/-- Invariant carried along a run of data-period calls: the counter stays
within max of the starting magnitude and 9, and keeps the starting parity. -/
theorem run_invariant (c0 : Int) (calls : List (Int × Int)) : ∀ c : Int,
    (∀ p ∈ calls, (0 ≤ p.1 ∧ p.1 ≤ 255) ∧ (0 ≤ p.2 ∧ p.2 ≤ 3)) →
    -(max |c0| 9) ≤ c → c ≤ max |c0| 9 → (c - c0) % 2 = 0 →
    -(max |c0| 9) ≤ encodeRun c calls ∧ encodeRun c calls ≤ max |c0| 9 ∧
      (encodeRun c calls - c0) % 2 = 0 := by
  induction calls with
  | nil => intro c _ h1 h2 h3; exact ⟨h1, h2, h3⟩
  | cons p rest ih =>
    intro c hv h1 h2 h3
    have hp := hv p (List.mem_cons_self p rest)
    have hstep := step_bound c p.1 hp.1.1 hp.1.2
    have hE : (Encode c p.1 true p.2).2 = (dcBalance c (qm p.1)).2 := by
      rw [encode_data_eq c p.1 p.2 (by omega) (by omega) (by omega)]
    have hrun : encodeRun c (p :: rest) =
        encodeRun ((Encode c p.1 true p.2).2) rest := by
      simp [encodeRun]
    rw [hrun, hE]
    have h9 : (9 : Int) ≤ max |c0| 9 := le_max_right _ _
    obtain ⟨hpar, hz, hpos, hneg⟩ := hstep
    refine ih ((dcBalance c (qm p.1)).2)
      (fun q hq => hv q (List.mem_cons_of_mem p hq)) ?_ ?_ ?_
    · rcases lt_trichotomy c 0 with h | h | h
      · have := hneg h; omega
      · have := hz h; omega
      · have := hpos h; omega
    · rcases lt_trichotomy c 0 with h | h | h
      · have := hneg h; omega
      · have := hz h; omega
      · have := hpos h; omega
    · omega

/-- Claim C5: across any finite sequence of valid data-period Encode calls
with no intervening control-period call, at every point (every prefix of the
sequence) the running disparity counter's absolute value never exceeds 8
plus its absolute value at the start of the run. -/
theorem disparity_bounded (c0 : Int) (calls : List (Int × Int))
    (hv : ∀ p ∈ calls, (0 ≤ p.1 ∧ p.1 ≤ 255) ∧ (0 ≤ p.2 ∧ p.2 ≤ 3))
    (t : Nat) :
    |encodeRun c0 (calls.take t)| ≤ |c0| + 8 := by
  have hv' : ∀ p ∈ calls.take t, (0 ≤ p.1 ∧ p.1 ≤ 255) ∧ (0 ≤ p.2 ∧ p.2 ≤ 3) :=
    fun p hp => hv p (List.take_subset t calls hp)
  have ha1 : c0 ≤ |c0| := le_abs_self c0
  have ha2 : -|c0| ≤ c0 := neg_abs_le c0
  have hm1 : |c0| ≤ max |c0| 9 := le_max_left _ _
  have h := run_invariant c0 (calls.take t) c0 hv' (by omega) (by omega)
    (by omega)
  have hM : max |c0| 9 = |c0| ∨ max |c0| 9 = 9 := max_choice _ _
  rw [abs_le]
  constructor <;> omega

/-- Witness for Claim C5: one call with byte 3 from counter 0. -/
theorem disparity_bounded_witness :
    |encodeRun 0 ([((3 : Int), (0 : Int))].take 1)| ≤ |(0 : Int)| + 8 :=
  disparity_bounded 0 [(3, 0)] (by decide) 1

/-- Claim C6: every Encode call with byte above 255, byte below 0, or
control selector above 3 — in data or control mode — fails with the
out-of-range error and leaves the running disparity counter exactly as it
was before the call. -/
theorem encode_rejects_out_of_range (cnt b ctrl : Int) (DE : Bool)
    (h : b > 255 ∨ b < 0 ∨ ctrl > 3) :
    Encode cnt b DE ctrl = (.error .outOfRange, cnt) := by
  unfold Encode
  split_ifs <;> first | rfl | (exfalso; omega)

/-- Witness for Claim C6: byte 300 in data mode with prior counter 5. -/
theorem encode_rejects_out_of_range_witness :
    Encode 5 300 true 0 = (.error .outOfRange, 5) :=
  encode_rejects_out_of_range 5 300 0 true (Or.inl (by decide))

/-- Counterexample to Claim C7 as stated: the negative symbol -1 is not
rejected by Decode; the source only checks the upper bound, so Decode (-1)
succeeds and returns 0. -/
theorem decode_negative_not_rejected :
    Decode (-1) = .ok 0 ∧ ¬ Decode (-1) = .error .outOfRange := by
  constructor
  · decide
  · decide

/-- Claim C7 (amended): Decode fails with the out-of-range error exactly for
symbols at or above 1024; symbols below 1024 — including negative ones,
which are not validated — always decode successfully. -/
theorem decode_range_check (s : Int) :
    (1024 ≤ s → Decode s = .error .outOfRange) ∧
    (s < 1024 → ∃ v, Decode s = .ok v) := by
  constructor
  · intro h
    unfold Decode
    rw [if_pos (by omega)]
  · intro h
    unfold Decode
    rw [if_neg (by omega)]
    exact ⟨_, rfl⟩

/-- Witness for Claim C7 (amended) at symbols 1024 and -1. -/
theorem decode_range_check_witness :
    Decode 1024 = .error .outOfRange ∧ ∃ v, Decode (-1) = .ok v :=
  ⟨(decode_range_check 1024).1 (by decide), (decode_range_check (-1)).2 (by decide)⟩

/-- Claim C8: Decode is stateless and effect-free on the encoder state.
Invoked on an encoder whose counter holds any value, it leaves that counter
unchanged, and its result depends only on the input symbol — it coincides
with the pure Decode function for every counter value. -/
theorem decode_stateless (cnt cnt' input : Int) :
    (DecodeS cnt input).2 = cnt ∧
    (DecodeS cnt input).1 = (DecodeS cnt' input).1 ∧
    (DecodeS cnt input).1 = Decode input :=
  ⟨rfl, rfl, rfl⟩

/-- Exhaustive check: the three case symbols lie in the 10-bit range for
every minimized word arising from a byte. -/
theorem sym_range : ∀ n : Nat, n < 256 →
    (0 ≤ caseASym (qm (n : Int)) ∧ caseASym (qm (n : Int)) ≤ 1023) ∧
    (0 ≤ caseBSym (qm (n : Int)) ∧ caseBSym (qm (n : Int)) ≤ 1023) ∧
    (0 ≤ caseCSym (qm (n : Int)) ∧ caseCSym (qm (n : Int)) ≤ 1023) := by decide

/-- Exhaustive check: Decode succeeds with a byte in [0, 255] on every
symbol in [0, 1023]. -/
theorem decode_range_all : ∀ n : Nat, n < 1024 →
    decodeInRange (n : Int) = true := by decide

/-- Claim C9: output ranges are preserved at the public interface — every
valid data-period Encode call returns a symbol in [0, 1023], and Decode maps
every symbol in [0, 1023] to a byte in [0, 255]. -/
theorem interface_value_ranges :
    (∀ cnt b ctrl : Int, 0 ≤ b → b ≤ 255 → 0 ≤ ctrl → ctrl ≤ 3 →
      ∃ q c, Encode cnt b true ctrl = (.ok (q, c), c) ∧ 0 ≤ q ∧ q ≤ 1023)
    ∧ (∀ s : Int, 0 ≤ s → s ≤ 1023 →
      ∃ v, Decode s = .ok v ∧ 0 ≤ v ∧ v ≤ 255) := by
  constructor
  · intro cnt b ctrl hb0 hb1 hc0 hc1
    have hE := encode_data_eq cnt b ctrl (by omega) (by omega) (by omega)
    refine ⟨(dcBalance cnt (qm b)).1, (dcBalance cnt (qm b)).2, hE, ?_⟩
    obtain ⟨n, hn, rfl⟩ : ∃ n : Nat, n < 256 ∧ b = (n : Int) :=
      ⟨b.toNat, by omega, by omega⟩
    obtain ⟨hA, hB, hC⟩ := sym_range n hn
    rcases dc_fst_cases cnt (qm (n : Int)) with h | h | h <;> rw [h]
    · exact hA
    · exact hB
    · exact hC
  · intro s h0 h1
    obtain ⟨n, hn, rfl⟩ : ∃ n : Nat, n < 1024 ∧ s = (n : Int) :=
      ⟨s.toNat, by omega, by omega⟩
    have h := decode_range_all n hn
    unfold decodeInRange at h
    cases hd : Decode (n : Int) with
    | ok v =>
      simp only [hd] at h
      exact ⟨v, rfl, of_decide_eq_true h⟩
    | error e =>
      simp only [hd] at h
      cases h

/-- Witness for Claim C9 at byte 5 (encode side) and symbol 300 (decode
side). -/
theorem interface_value_ranges_witness :
    (∃ q c, Encode 0 5 true 0 = (.ok (q, c), c) ∧ 0 ≤ q ∧ q ≤ 1023) ∧
    (∃ v, Decode 300 = .ok v ∧ 0 ≤ v ∧ v ≤ 255) :=
  ⟨interface_value_ranges.1 0 5 0 (by decide) (by decide) (by decide)
      (by decide),
    interface_value_ranges.2 300 (by decide) (by decide)⟩

/-- Claim C10: Encode does not validate negative control selectors — in
control mode with any valid byte and any control below 0 it succeeds, resets
the counter to 0, and returns the control-3 fallback symbol. -/
theorem negative_control_fallback (cnt b ctrl : Int) (hb0 : 0 ≤ b)
    (hb1 : b ≤ 255) (hc : ctrl < 0) :
    Encode cnt b false ctrl = (.ok (0b1010101011, 0), 0) := by
  have h1 : ¬(b > 255) := by omega
  have h2 : ¬(b < 0) := by omega
  have h3 : ¬(ctrl > 3) := by omega
  have hc0 : ¬(ctrl = 0) := by omega
  have hc1 : ¬(ctrl = 1) := by omega
  have hc2 : ¬(ctrl = 2) := by omega
  simp [Encode, if_neg h1, if_neg h2, if_neg h3, hc0, hc1, hc2]

/-- Witness for Claim C10 at byte 0, control -1, prior counter 7. -/
theorem negative_control_fallback_witness :
    Encode 7 0 false (-1) = (.ok (0b1010101011, 0), 0) :=
  negative_control_fallback 7 0 (-1) (by decide) (by decide) (by decide)

end TMDS
